import Mathlib

/-!
Verification of the ipfs-viewer type-resolution and rendering-dispatch
pipeline. The repository has two near-duplicate entry points,
`src/main.ts` (embedded here at top level and under `Main`) and the unnamed
variant `part_000` (embedded under `Alt` where it differs). MIME strings
are modelled as `String`; payload text as `List Char` (JS strings are
sequences of code units); payload bytes as `List (Fin 256)` (entries of a
`Uint8Array` are always in `0..255`).
-/

set_option maxRecDepth 8000

namespace IpfsViewer

/-- Characters of a string literal; used to model JS strings as `List Char`. -/
def strL (s : String) : List Char := s.toList

/-- Models JS `String.prototype.startsWith`. -/
def strStarts (s p : String) : Bool := (strL p).isPrefixOf (strL s)

/-- `isImage` from both entry points: `mimeType.startsWith('image/')`. -/
def isImage (mimeType : String) : Bool := strStarts mimeType "image/"

/-- `isVideo`: `mimeType.startsWith('video/')`. -/
def isVideo (mimeType : String) : Bool := strStarts mimeType "video/"

/-- `isAudio`: `mimeType.startsWith('audio/')`. -/
def isAudio (mimeType : String) : Bool := strStarts mimeType "audio/"

/-- `isHTML`: `mimeType === 'text/html' || mimeType === 'application/xhtml+xml'`. -/
def isHTML (mimeType : String) : Bool :=
  mimeType == "text/html" || mimeType == "application/xhtml+xml"

/-- `isText`: `mimeType.startsWith('text/') && !isHTML(mimeType)`. -/
def isText (mimeType : String) : Bool :=
  strStarts mimeType "text/" && !(isHTML mimeType)

/-- `isPDF`: `mimeType === 'application/pdf'`. -/
def isPDF (mimeType : String) : Bool := mimeType == "application/pdf"

/-- The `archiveTypes` array from `isArchive`. -/
def archiveTypes : List String :=
  ["application/zip",
   "application/x-zip-compressed",
   "application/x-rar-compressed",
   "application/x-7z-compressed",
   "application/gzip",
   "application/x-gzip",
   "application/x-tar",
   "application/x-bzip2"]

/-- `isArchive`: `archiveTypes.includes(mimeType)`. -/
def isArchive (mimeType : String) : Bool := archiveTypes.contains mimeType

/-- `isJSON`: `mimeType === 'application/json' || mimeType === 'text/json'`. -/
def isJSON (mimeType : String) : Bool :=
  mimeType == "application/json" || mimeType == "text/json"

/-- The closed set of rendering categories of the spec, one per handler of
`handleResponse`. -/
inductive Category where
  | image
  | video
  | audio
  | markupDocument
  | plainText
  | portableDocument
  | archive
  | structuredData
  | binary
deriving DecidableEq

/-- The classification induced by the ordered `if/else` predicate chain of
`handleResponse` (`isImage` first, `isJSON` last, `handleBinary` as the
default). -/
def classify (mimeType : String) : Category :=
  if isImage mimeType then Category.image
  else if isVideo mimeType then Category.video
  else if isAudio mimeType then Category.audio
  else if isHTML mimeType then Category.markupDocument
  else if isText mimeType then Category.plainText
  else if isPDF mimeType then Category.portableDocument
  else if isArchive mimeType then Category.archive
  else if isJSON mimeType then Category.structuredData
  else Category.binary

/-- JS falsiness of `contentType: string | null`: `null` and `''` are falsy. -/
def jsFalsy : Option String → Bool
  | none => true
  | some s => s == ""

/-- Models the JS expression `x || d` for `x : string | undefined`:
`undefined` and the empty string fall through to the default. -/
def jsOr : Option String → String → String
  | none, d => d
  | some s, d => if s == "" then d else s

/-- The type-resolution step at the top of `handleResponse`:
`let mimeType = contentType; if (!mimeType) mimeType = detected?.mime || 'application/octet-stream'`.
The signature detector's output is abstracted as an `Option String`. -/
def resolveMimeType (contentType : Option String) (detected : Option String) : String :=
  if jsFalsy contentType then jsOr detected "application/octet-stream"
  else contentType.getD ""

/-- The inline error fragment written by the `catch` block of
`handleResponse` in `src/main.ts`. -/
def errorDiv (msg : String) : String :=
  "<div class=\"error\">Error loading content: " ++ msg ++ "</div>"

/-- The renderer-dispatch chain of `handleResponse`. The category renderers
are abstracted as a family of fallible computations (`Except`), since the
concrete handlers' failures (decoding faults, resource exhaustion) are
runtime exceptions outside the embedded fragment logic. -/
def dispatchChain (renderers : Category → Except String String)
    (mimeType : String) : Except String String :=
  if isImage mimeType then renderers Category.image
  else if isVideo mimeType then renderers Category.video
  else if isAudio mimeType then renderers Category.audio
  else if isHTML mimeType then renderers Category.markupDocument
  else if isText mimeType then renderers Category.plainText
  else if isPDF mimeType then renderers Category.portableDocument
  else if isArchive mimeType then renderers Category.archive
  else if isJSON mimeType then renderers Category.structuredData
  else renderers Category.binary

/-- The `try`/`catch` failure boundary of `handleResponse`: a renderer
fault is converted into the inline error fragment, a success is delivered
as is. -/
def handleResponseWith (renderers : Category → Except String String)
    (mimeType : String) : String :=
  match dispatchChain renderers mimeType with
  | Except.ok html => html
  | Except.error msg => errorDiv msg

/-- `htmlContent.replace(/"/g, '&quot;')` — the iframe `srcdoc` attribute
value built by `handleHTML`. -/
def escQuote (t : List Char) : List Char :=
  t.flatMap fun c => if c = '"' then strL "&quot;" else [c]

/-- `replace(/</g, '&lt;')`. -/
def escLt (t : List Char) : List Char :=
  t.flatMap fun c => if c = '<' then strL "&lt;" else [c]

/-- `replace(/>/g, '&gt;')`. -/
def escGt (t : List Char) : List Char :=
  t.flatMap fun c => if c = '>' then strL "&gt;" else [c]

/-- `replace(/</g, '&lt;').replace(/>/g, '&gt;')` — the raw-source view
built by `handleHTML` (also used by `handleText` and `handleJSON` in
`src/main.ts`). -/
def escLtGt (t : List Char) : List Char := escGt (escLt t)

/-- Digit characters of JS `b.toString(16)` (lowercase hex). -/
def hexDigitChar (n : Nat) : Char :=
  if n < 10 then Char.ofNat (48 + n) else Char.ofNat (87 + n)

/-- `b.toString(16).padStart(2, '0')` for a `Uint8Array` entry `b < 256`:
one hex digit gets a leading `'0'`, two hex digits stay as they are. -/
def hexPair (b : Fin 256) : List Char :=
  if b.val < 16 then ['0', hexDigitChar b.val]
  else [hexDigitChar (b.val / 16), hexDigitChar (b.val % 16)]

/-- JS `Array.prototype.join` with a one-character separator string. -/
def joinSepC (sep : Char) : List (List Char) → List Char
  | [] => []
  | [a] => a
  | a :: b :: t => a ++ sep :: joinSepC sep (b :: t)

/-- The space-joined hex pairs of the dumped bytes, from `handleBinary`:
`Array.from(bytes.slice(0, 256)).map(b => b.toString(16).padStart(2, '0')).join(' ')`. -/
def hexBody (p : List (Fin 256)) : List Char :=
  joinSepC ' ' ((p.take 256).map hexPair)

/-- The greedy chunking performed by `.match(/.{1,48}/g)`: runs of at most
48 characters, in order, covering the whole string. -/
def chunk48 : List Char → List (List Char)
  | [] => []
  | c :: cs => (c :: cs.take 47) :: chunk48 (cs.drop 47)
termination_by l => l.length
decreasing_by simp; omega

/-- The lines of the hex dump of `handleBinary`. -/
def dumpLines (p : List (Fin 256)) : List (List Char) := chunk48 (hexBody p)

/-- The final `hexPreview` value of `handleBinary`:
`.join(' ').match(/.{1,48}/g)?.join('\n') || ''` (a `null` match result,
which happens exactly on the empty string, yields `''`). -/
def hexPreview (p : List (Fin 256)) : List Char := joinSepC '\n' (dumpLines p)

/-- Lowercase hexadecimal digit test. -/
def isHexDigitChar (c : Char) : Bool :=
  (48 ≤ c.toNat && c.toNat ≤ 57) || (97 ≤ c.toNat && c.toNat ≤ 102)

/-- A two-character hexadecimal pair. -/
def hexPairStr (l : List Char) : Bool :=
  l.length == 2 && l.all isHexDigitChar

/-- JS `line.split(' ')`: the pieces of a line between its spaces
(an empty piece witnesses a leading, trailing or doubled space). -/
def splitSpaces (l : List Char) : List (List Char) :=
  l.foldr
    (fun c acc =>
      if c = ' ' then [] :: acc
      else
        match acc with
        | [] => [[c]]
        | a :: t => (c :: a) :: t)
    [[]]

/-- The per-line format asserted by claim C2: a line is at most 24 hex
pairs (48 hex-pair characters) separated by single spaces, and nothing
else. -/
def lineOK (l : List Char) : Bool :=
  decide ((splitSpaces l).length ≤ 24) && (splitSpaces l).all hexPairStr

/-- Characters of the dump that are neither the in-line separator `' '`
nor the line separator `'\n'`. -/
def nonSep (c : Char) : Bool := !(c == ' ' || c == '\n')

/-- Modelled from the spec: the JSON values handled by the StructuredData
renderer. `JSON.parse` and `JSON.stringify` are platform builtins absent
from the repository sources; the spec describes them as parsing
structured-data syntax and pretty-printing with stable 2-space
indentation. Numbers are modelled as integers (no fraction or exponent)
and object members as an ordered list of key/value pairs. -/
inductive Json where
  | null : Json
  | bool : Bool → Json
  | num : Int → Json
  | str : List Char → Json
  | arr : List Json → Json
  | obj : List (List Char × Json) → Json

/-- JSON whitespace characters. -/
def isWsChar (c : Char) : Bool := c == ' ' || c == '\n' || c == '\t' || c == '\r'

/-- Drop leading JSON whitespace. -/
def skipWs : List Char → List Char
  | [] => []
  | c :: cs => if isWsChar c then skipWs cs else c :: cs

/-- Decimal digit test. -/
def isDigitChar (c : Char) : Bool := 48 ≤ c.toNat && c.toNat ≤ 57

/-- Modelled from the spec: numeric value of a digit run, most significant
digit first. -/
def digitsToNat (ds : List Char) : Nat :=
  ds.foldl (fun a c => a * 10 + (c.toNat - 48)) 0

/-- Modelled from the spec: parse a nonempty decimal digit run. -/
def parseNatNum (s : List Char) : Option (Nat × List Char) :=
  let ds := s.takeWhile isDigitChar
  if ds.isEmpty then none else some (digitsToNat ds, s.dropWhile isDigitChar)

/-- Modelled from the spec: parse an optionally signed integer numeral. -/
def parseNum (s : List Char) : Option (Json × List Char) :=
  if s.head? = some '-' then
    (parseNatNum (s.drop 1)).map fun p => (Json.num (-(p.1 : Int)), p.2)
  else
    (parseNatNum s).map fun p => (Json.num (p.1 : Int), p.2)

/-- Modelled from the spec: the character denoted by a string escape. -/
def unescape (e : Char) : Option Char :=
  if e = '"' then some '"'
  else if e = '\\' then some '\\'
  else if e = '/' then some '/'
  else if e = 'n' then some '\n'
  else if e = 't' then some '\t'
  else if e = 'r' then some '\r'
  else if e = 'b' then some '\x08'
  else if e = 'f' then some '\x0c'
  else none

mutual

/-- Modelled from the spec: parse a string body up to and including its
closing quote, returning the decoded content and the remaining input. -/
def parseStrAux : List Char → Option (List Char × List Char)
  | [] => none
  | c :: rest =>
    if c = '"' then some ([], rest)
    else if c = '\\' then parseEsc rest
    else (parseStrAux rest).map fun p => (c :: p.1, p.2)

/-- State of the string parser immediately after a backslash. -/
def parseEsc : List Char → Option (List Char × List Char)
  | [] => none
  | e :: rest2 =>
    (unescape e).bind fun u => (parseStrAux rest2).map fun p => (u :: p.1, p.2)

end

mutual

/-- Modelled from the spec: parse one JSON value after optional leading
whitespace. The fuel argument dominates the nesting structure; the
top-level entry point supplies the input length plus one. -/
def parseVal : Nat → List Char → Option (Json × List Char)
  | 0, _ => none
  | fuel+1, input =>
    match skipWs input with
    | [] => none
    | c :: cs =>
      if c = '"' then (parseStrAux cs).map fun p => (Json.str p.1, p.2)
      else if c = '[' then
        let s2 := skipWs cs
        if s2.head? = some ']' then some (Json.arr [], s2.drop 1)
        else (parseItems fuel s2).map fun p => (Json.arr p.1, p.2)
      else if c = '\x7b' then
        let s2 := skipWs cs
        if s2.head? = some '\x7d' then some (Json.obj [], s2.drop 1)
        else (parseMembers fuel s2).map fun p => (Json.obj p.1, p.2)
      else if c = 'n' then
        if (c :: cs).take 4 = strL "null" then some (Json.null, (c :: cs).drop 4)
        else none
      else if c = 't' then
        if (c :: cs).take 4 = strL "true" then some (Json.bool true, (c :: cs).drop 4)
        else none
      else if c = 'f' then
        if (c :: cs).take 5 = strL "false" then some (Json.bool false, (c :: cs).drop 5)
        else none
      else parseNum (c :: cs)

/-- Modelled from the spec: parse a comma-separated nonempty item sequence
followed by the closing bracket. -/
def parseItems : Nat → List Char → Option (List Json × List Char)
  | 0, _ => none
  | fuel+1, s =>
    (parseVal fuel s).bind fun vr =>
      let r1 := skipWs vr.2
      if r1.head? = some ',' then
        (parseItems fuel (r1.drop 1)).map fun p => (vr.1 :: p.1, p.2)
      else if r1.head? = some ']' then some ([vr.1], r1.drop 1)
      else none

/-- Modelled from the spec: parse a comma-separated nonempty member
sequence followed by the closing brace. -/
def parseMembers : Nat → List Char → Option (List (List Char × Json) × List Char)
  | 0, _ => none
  | fuel+1, s =>
    let s1 := skipWs s
    if s1.head? = some '"' then
      (parseStrAux (s1.drop 1)).bind fun kr =>
        let r2 := skipWs kr.2
        if r2.head? = some ':' then
          (parseVal fuel (r2.drop 1)).bind fun vr =>
            let r4 := skipWs vr.2
            if r4.head? = some ',' then
              (parseMembers fuel (r4.drop 1)).map fun p => ((kr.1, vr.1) :: p.1, p.2)
            else if r4.head? = some '\x7d' then some ([(kr.1, vr.1)], r4.drop 1)
            else none
        else none
    else none

end

/-- Modelled from the spec: `JSON.parse` — parse a complete JSON text,
tolerating trailing whitespace only. -/
def jsonParse (t : List Char) : Option Json :=
  match parseVal (t.length + 1) t with
  | some (v, rest) => if skipWs rest = [] then some v else none
  | none => none

/-- Modelled from the spec: `JSON.stringify`'s escaping of one string
character (`"`, `\` and the control characters with short escapes). -/
def escapeChar (c : Char) : List Char :=
  if c = '"' then ['\\', '"']
  else if c = '\\' then ['\\', '\\']
  else if c = '\n' then ['\\', 'n']
  else if c = '\t' then ['\\', 't']
  else if c = '\r' then ['\\', 'r']
  else if c = '\x08' then ['\\', 'b']
  else if c = '\x0c' then ['\\', 'f']
  else [c]

/-- String-body escaping of the printer. -/
def escStr (s : List Char) : List Char := s.flatMap escapeChar

/-- Decimal digit character. -/
def digit10 (d : Nat) : Char := Char.ofNat (48 + d)

/-- Modelled from the spec: decimal numeral of a natural number. -/
def natToChars (n : Nat) : List Char :=
  if n < 10 then [digit10 n]
  else natToChars (n / 10) ++ [digit10 (n % 10)]
termination_by n
decreasing_by exact Nat.div_lt_self (by omega) (by omega)

/-- Modelled from the spec: decimal numeral of an integer. -/
def intToChars (n : Int) : List Char :=
  if n < 0 then '-' :: natToChars (-n).toNat else natToChars n.toNat

/-- Indentation: `n` spaces. -/
def spacesL (n : Nat) : List Char := List.replicate n ' '

mutual

/-- Modelled from the spec: `JSON.stringify(v, null, 2)` — pretty-print
with stable 2-space indentation. `ind` is the column of the value's
closing bracket; the top-level entry point supplies `0`. -/
def printJson (ind : Nat) : Json → List Char
  | Json.null => strL "null"
  | Json.bool true => strL "true"
  | Json.bool false => strL "false"
  | Json.num n => intToChars n
  | Json.str s => '"' :: (escStr s ++ ['"'])
  | Json.arr [] => strL "[]"
  | Json.arr (x :: xs) =>
      '[' :: '\n' :: (printItems ind (x :: xs) ++ '\n' :: (spacesL ind ++ [']']))
  | Json.obj [] => strL "\x7b\x7d"
  | Json.obj (m :: ms) =>
      '\x7b' :: '\n' :: (printMembers ind (m :: ms) ++ '\n' :: (spacesL ind ++ ['\x7d']))
termination_by v => sizeOf v

/-- Item lines of a nonempty pretty-printed array. -/
def printItems (ind : Nat) : List Json → List Char
  | [] => []
  | [x] => spacesL (ind + 2) ++ printJson (ind + 2) x
  | x :: y :: ys =>
      spacesL (ind + 2) ++ printJson (ind + 2) x ++ ',' :: '\n' :: printItems ind (y :: ys)
termination_by l => sizeOf l

/-- Member lines of a nonempty pretty-printed object. -/
def printMembers (ind : Nat) : List (List Char × Json) → List Char
  | [] => []
  | [m] => spacesL (ind + 2) ++ printMember ind m
  | m :: m2 :: ms =>
      spacesL (ind + 2) ++ printMember ind m ++ ',' :: '\n' :: printMembers ind (m2 :: ms)
termination_by l => sizeOf l

/-- One pretty-printed object member: `"key": value`. -/
def printMember (ind : Nat) : List Char × Json → List Char
  | (k, v) => '"' :: (escStr k ++ ('"' :: (':' :: (' ' :: printJson (ind + 2) v))))
termination_by m => sizeOf m

end

/-- Modelled from the spec: `JSON.stringify(v, null, 2)` at top level. -/
def stringify2 (v : Json) : List Char := printJson 0 v

mutual

/-- Size measure for the parser's fuel: number of syntax nodes. -/
def jsize : Json → Nat
  | Json.null => 1
  | Json.bool _ => 1
  | Json.num _ => 1
  | Json.str _ => 1
  | Json.arr l => 1 + jsizeL l
  | Json.obj l => 1 + jsizeM l
termination_by v => sizeOf v

def jsizeL : List Json → Nat
  | [] => 1
  | x :: xs => 1 + jsize x + jsizeL xs
termination_by l => sizeOf l

def jsizeM : List (List Char × Json) → Nat
  | [] => 1
  | (_, v) :: ms => 1 + jsize v + jsizeM ms
termination_by l => sizeOf l

end

/-- Leading whitespace the parser may skip. -/
def wsOnly (l : List Char) : Prop := ∀ c ∈ l, isWsChar c = true

/-- Rest inputs whose head cannot extend a numeral. -/
def noDigitHead (l : List Char) : Prop :=
  ∀ c, l.head? = some c → isDigitChar c = false

/-- Tail of the item lines after the first item of an array. -/
def afterItems (ind : Nat) : List Json → List Char
  | [] => []
  | y :: ys => ',' :: '\n' :: printItems ind (y :: ys)

/-- Tail of the member lines after the first member of an object. -/
def afterMembers (ind : Nat) : List (List Char × Json) → List Char
  | [] => []
  | m2 :: ms2 => ',' :: '\n' :: printMembers ind (m2 :: ms2)

/-- The text interpolated into the display block of `handleJSON` in
`src/main.ts`: `JSON.stringify(json, null, 2).replace(/</g,'&lt;').replace(/>/g,'&gt;')`
on success, `jsonText.replace(/</g,'&lt;').replace(/>/g,'&gt;')` on parse
failure. -/
def Main.handleJSONShown (t : List Char) : List Char :=
  match jsonParse t with
  | some v => escLtGt (stringify2 v)
  | none => escLtGt t

/-- `handleJSON` of `src/main.ts`: both the success branch and the caught
parse failure write a fragment and return normally — never a thrown
error. -/
def Main.handleJSON (t : List Char) : Except (List Char) (List Char) :=
  Except.ok (Main.handleJSONShown t)

/-- The text interpolated into the display block of `handleJSON` in
`part_000`: `JSON.stringify(json, null, 2)` on success, the raw `text` on
parse failure — in both branches without any escaping. -/
def Alt.handleJSONShown (t : List Char) : List Char :=
  match jsonParse t with
  | some v => stringify2 v
  | none => t

/-- `handleJSON` of `part_000`: returns normally in both branches. -/
def Alt.handleJSON (t : List Char) : Except (List Char) (List Char) :=
  Except.ok (Alt.handleJSONShown t)

namespace Main

/-- The `mimeToExt` lookup table of `getExtensionFromMime` in `src/main.ts`. -/
def mimeToExt : List (String × String) :=
  [("image/jpeg", "jpg"),
   ("image/png", "png"),
   ("image/gif", "gif"),
   ("image/webp", "webp"),
   ("image/svg+xml", "svg"),
   ("video/mp4", "mp4"),
   ("video/webm", "webm"),
   ("video/ogg", "ogv"),
   ("audio/mp3", "mp3"),
   ("audio/mpeg", "mp3"),
   ("audio/wav", "wav"),
   ("audio/ogg", "ogg"),
   ("application/pdf", "pdf"),
   ("application/zip", "zip"),
   ("application/x-rar-compressed", "rar"),
   ("application/x-7z-compressed", "7z"),
   ("text/plain", "txt"),
   ("text/html", "html"),
   ("application/json", "json")]

/-- `getExtensionFromMime` from `src/main.ts`: `mimeToExt[mimeType] || 'bin'`. -/
def getExtensionFromMime (mimeType : String) : String :=
  jsOr (mimeToExt.lookup mimeType) "bin"

end Main

namespace Alt

/-- The `map` lookup table of `getExtensionFromMime` in `part_000`. -/
def mimeToExt : List (String × String) :=
  [("image/jpeg", "jpg"),
   ("image/png", "png"),
   ("image/gif", "gif"),
   ("image/webp", "webp"),
   ("video/mp4", "mp4"),
   ("video/webm", "webm"),
   ("audio/mpeg", "mp3"),
   ("audio/wav", "wav"),
   ("application/pdf", "pdf"),
   ("application/zip", "zip"),
   ("application/x-rar-compressed", "rar"),
   ("application/x-7z-compressed", "7z"),
   ("text/plain", "txt"),
   ("text/html", "html"),
   ("application/json", "json")]

/-- `getExtensionFromMime` from `part_000`: `map[mime] || 'bin'`. -/
def getExtensionFromMime (mime : String) : String :=
  jsOr (mimeToExt.lookup mime) "bin"

end Alt

/-! ## Helper lemmas -/

theorem contains_eq_false_of_not_mem {l : List Char} {c : Char} (h : c ∉ l) :
    l.contains c = false := by
  simpa using h

theorem not_mem_of_contains_eq_false {l : List Char} {c : Char}
    (h : l.contains c = false) : c ∉ l := by
  simpa using h

theorem quote_not_mem_escQuote (t : List Char) : '"' ∉ escQuote t := by
  intro hmem
  rcases List.mem_flatMap.mp hmem with ⟨c, _, hin⟩
  by_cases h : c = '"'
  · rw [if_pos h] at hin
    exact absurd hin (by decide)
  · rw [if_neg h] at hin
    exact h (List.mem_singleton.mp hin).symm

theorem lt_not_mem_escLt (t : List Char) : '<' ∉ escLt t := by
  intro hmem
  rcases List.mem_flatMap.mp hmem with ⟨c, _, hin⟩
  by_cases h : c = '<'
  · rw [if_pos h] at hin
    exact absurd hin (by decide)
  · rw [if_neg h] at hin
    exact h (List.mem_singleton.mp hin).symm

theorem gt_not_mem_escGt (t : List Char) : '>' ∉ escGt t := by
  intro hmem
  rcases List.mem_flatMap.mp hmem with ⟨c, _, hin⟩
  by_cases h : c = '>'
  · rw [if_pos h] at hin
    exact absurd hin (by decide)
  · rw [if_neg h] at hin
    exact h (List.mem_singleton.mp hin).symm

theorem escGt_preserves_no_lt {t : List Char} (h : '<' ∉ t) : '<' ∉ escGt t := by
  intro hmem
  rcases List.mem_flatMap.mp hmem with ⟨c, hc, hin⟩
  by_cases hgt : c = '>'
  · rw [if_pos hgt] at hin
    exact absurd hin (by decide)
  · rw [if_neg hgt] at hin
    exact h ((List.mem_singleton.mp hin) ▸ hc)

theorem string_length_pos_of_beq_empty_false {s : String} (h : (s == "") = false) :
    0 < s.length := by
  have hne : s ≠ "" := by simpa using h
  cases s with
  | mk data =>
    cases data with
    | nil => simp at hne
    | cons c cs => simp [String.length]

theorem lookup_eq_none_of_keys_ne {β : Type} :
    ∀ (l : List (String × β)) (m : String),
      (∀ pair ∈ l, pair.1 ≠ m) → l.lookup m = none := by
  intro l
  induction l with
  | nil => intro m _; rfl
  | cons kv t ih =>
    intro m h
    have hk : kv.1 ≠ m := h kv (List.mem_cons_self kv t)
    have hbeq : (m == kv.1) = false := by
      simpa using fun he => hk he.symm
    cases kv with
    | mk k v =>
      simp only [List.lookup]
      rw [hbeq]
      exact ih m fun pair hp => h pair (List.mem_cons_of_mem _ hp)

theorem hexPair_length (b : Fin 256) : (hexPair b).length = 2 := by
  revert b; decide

theorem hexPair_is_hex (b : Fin 256) : hexPairStr (hexPair b) = true := by
  revert b; decide

theorem hexPair_filter_nonSep (b : Fin 256) :
    (hexPair b).filter nonSep = hexPair b := by
  revert b; decide

theorem filter_flatten_comm (f : Char → Bool) (L : List (List Char)) :
    L.flatten.filter f = (L.map (List.filter f)).flatten := by
  induction L with
  | nil => rfl
  | cons a t ih => simp [List.filter_append, ih]

theorem joinSepC_filter {sep : Char} {f : Char → Bool} (hf : f sep = false) :
    ∀ Ls : List (List Char),
      (joinSepC sep Ls).filter f = (Ls.map (List.filter f)).flatten
  | [] => rfl
  | [a] => by simp [joinSepC]
  | a :: b :: t => by
      rw [joinSepC]
      simp [List.filter_append, List.filter_cons, hf, joinSepC_filter hf (b :: t)]

theorem flatten_chunk48 : ∀ l : List Char, (chunk48 l).flatten = l
  | [] => by simp [chunk48]
  | c :: cs => by
      simp only [chunk48, List.flatten_cons]
      rw [flatten_chunk48 (cs.drop 47)]
      simp
termination_by l => l.length
decreasing_by simp; omega

theorem chunk48_append48 (A B : List Char) (hA : A.length = 48) :
    chunk48 (A ++ B) = A :: chunk48 B := by
  cases A with
  | nil => simp at hA
  | cons c as =>
    have has : as.length = 47 := by simpa using hA
    rw [List.cons_append]
    simp only [chunk48]
    rw [← has, List.take_left, List.drop_left]

theorem chunk48_short (A : List Char) (hne : A ≠ []) (hlen : A.length ≤ 48) :
    chunk48 A = [A] := by
  cases A with
  | nil => exact absurd rfl hne
  | cons c as =>
    have h47 : as.length ≤ 47 := by simpa using hlen
    simp only [chunk48]
    rw [List.take_of_length_le h47, List.drop_eq_nil_of_le h47]
    simp [chunk48]

theorem joinSepC_length_pairs :
    ∀ pairs : List (List Char), (∀ pr ∈ pairs, pr.length = 2) → pairs ≠ [] →
      (joinSepC ' ' pairs).length = 3 * pairs.length - 1
  | [], _, hne => absurd rfl hne
  | [a], h, _ => by simp [joinSepC, h a (by simp)]
  | a :: b :: t, h, _ => by
      rw [joinSepC]
      have ih := joinSepC_length_pairs (b :: t)
        (fun pr hpr => h pr (List.mem_cons_of_mem _ hpr)) (by simp)
      have ha := h a (List.mem_cons_self _ _)
      simp only [List.length_append, List.length_cons, ih, ha]
      omega

theorem joinSepC_split :
    ∀ (k : Nat) (pairs : List (List Char)), k < pairs.length →
      joinSepC ' ' pairs =
        (pairs.take k).flatMap (fun pr => pr ++ [' ']) ++ joinSepC ' ' (pairs.drop k)
  | 0, pairs, _ => by simp
  | k+1, [], h => by simp at h
  | k+1, [a], h => by simp at h
  | k+1, a :: b :: t, h => by
      have hk : k < (b :: t).length := by
        simp only [List.length_cons] at h ⊢
        omega
      rw [joinSepC, joinSepC_split k (b :: t) hk]
      simp [List.append_assoc]

theorem flatMap_pairs_length :
    ∀ ps : List (List Char), (∀ pr ∈ ps, pr.length = 2) →
      (ps.flatMap (fun pr => pr ++ [' '])).length = 3 * ps.length
  | [], _ => rfl
  | a :: t, h => by
      simp only [List.flatMap_cons, List.length_append, List.length_cons]
      rw [flatMap_pairs_length t (fun pr hpr => h pr (List.mem_cons_of_mem _ hpr))]
      have ha := h a (List.mem_cons_self _ _)
      simp only [ha, List.length_nil, List.length_cons]
      omega

/-! ### JSON round-trip helper lemmas -/

theorem jsize_pos : ∀ v : Json, 1 ≤ jsize v := by
  intro v
  cases v <;> simp [jsize]

theorem noDigitHead_nil : noDigitHead [] := by
  intro c hc
  simp at hc

theorem noDigitHead_cons {c : Char} (h : isDigitChar c = false) (l : List Char) :
    noDigitHead (c :: l) := by
  intro d hd
  simp only [List.head?_cons, Option.some.injEq] at hd
  rw [← hd]
  exact h

theorem wsOnly_nil : wsOnly [] := by
  intro c hc
  simp at hc

theorem wsOnly_newline_indent (k : Nat) : wsOnly ('\n' :: spacesL k) := by
  intro c hc
  rcases List.mem_cons.mp hc with h | h
  · rw [h]; decide
  · rw [List.eq_of_mem_replicate h]; decide

theorem wsOnly_space : wsOnly [' '] := by
  intro c hc
  rw [List.mem_singleton.mp hc]; decide

theorem skipWs_append_ws {pre : List Char} (h : wsOnly pre) (l : List Char) :
    skipWs (pre ++ l) = skipWs l := by
  induction pre with
  | nil => rfl
  | cons c cs ih =>
    rw [List.cons_append, skipWs]
    rw [if_pos (h c (List.mem_cons_self _ _))]
    exact ih fun d hd => h d (List.mem_cons_of_mem _ hd)

theorem skipWs_cons_not {c : Char} (h : isWsChar c = false) (l : List Char) :
    skipWs (c :: l) = c :: l := by
  rw [skipWs, if_neg]
  rw [h]
  exact Bool.false_ne_true

theorem digit10_toNat : ∀ d : Nat, d < 10 → (digit10 d).toNat = 48 + d := by
  decide

theorem digit10_is_digit : ∀ d : Nat, d < 10 → isDigitChar (digit10 d) = true := by
  decide

theorem digit_no_clash {c : Char} (h : isDigitChar c = true) :
    c ≠ '"' ∧ c ≠ '[' ∧ c ≠ '\x7b' ∧ c ≠ 'n' ∧ c ≠ 't' ∧ c ≠ 'f' ∧
    c ≠ '-' ∧ c ≠ ']' ∧ c ≠ '\x7d' ∧ isWsChar c = false := by
  have hne : ∀ d : Char, isDigitChar d = false → c ≠ d := by
    intro d hd he
    rw [he, hd] at h
    exact Bool.false_ne_true h
  refine ⟨hne _ (by decide), hne _ (by decide), hne _ (by decide), hne _ (by decide),
    hne _ (by decide), hne _ (by decide), hne _ (by decide), hne _ (by decide),
    hne _ (by decide), ?_⟩
  have h32 : c ≠ ' ' := hne _ (by decide)
  have h10 : c ≠ '\n' := hne _ (by decide)
  have h9 : c ≠ '\t' := hne _ (by decide)
  have h13 : c ≠ '\r' := hne _ (by decide)
  simp [isWsChar, beq_eq_false_iff_ne.mpr h32, beq_eq_false_iff_ne.mpr h10,
    beq_eq_false_iff_ne.mpr h9, beq_eq_false_iff_ne.mpr h13]

theorem natToChars_digits : ∀ n : Nat, ∀ c ∈ natToChars n, isDigitChar c = true := by
  intro n
  induction n using Nat.strong_induction_on with
  | _ n ih =>
    intro c hc
    by_cases h : n < 10
    · rw [natToChars, if_pos h] at hc
      rw [List.mem_singleton.mp hc]
      exact digit10_is_digit n h
    · rw [natToChars, if_neg h] at hc
      rcases List.mem_append.mp hc with h1 | h1
      · exact ih (n / 10) (Nat.div_lt_self (by omega) (by omega)) c h1
      · rw [List.mem_singleton.mp h1]
        exact digit10_is_digit (n % 10) (Nat.mod_lt n (by omega))

theorem natToChars_cons :
    ∀ n : Nat, ∃ d t, natToChars n = d :: t ∧ isDigitChar d = true := by
  intro n
  cases hn : natToChars n with
  | nil =>
    exfalso
    by_cases h : n < 10
    · rw [natToChars, if_pos h] at hn; simp at hn
    · rw [natToChars, if_neg h] at hn
      exact List.append_ne_nil_of_right_ne_nil _ (by simp) hn
  | cons d t =>
    exact ⟨d, t, rfl, natToChars_digits n d (hn ▸ List.mem_cons_self d t)⟩

theorem digitsToNat_append_one (xs : List Char) (x : Char) :
    digitsToNat (xs ++ [x]) = (digitsToNat xs) * 10 + (x.toNat - 48) := by
  simp [digitsToNat, List.foldl_append]

theorem digitsToNat_natToChars : ∀ n : Nat, digitsToNat (natToChars n) = n := by
  intro n
  induction n using Nat.strong_induction_on with
  | _ n ih =>
    by_cases h : n < 10
    · rw [natToChars, if_pos h]
      simp [digitsToNat, digit10_toNat n h]
    · rw [natToChars, if_neg h, digitsToNat_append_one,
        ih (n / 10) (Nat.div_lt_self (by omega) (by omega)),
        digit10_toNat (n % 10) (Nat.mod_lt n (by omega))]
      omega

theorem takeWhile_dropWhile_append {A rest : List Char}
    (hA : ∀ c ∈ A, isDigitChar c = true) (hrest : noDigitHead rest) :
    (A ++ rest).takeWhile isDigitChar = A ∧
    (A ++ rest).dropWhile isDigitChar = rest := by
  induction A with
  | nil =>
    simp only [List.nil_append]
    cases rest with
    | nil => simp
    | cons r rs =>
      have hr : isDigitChar r = false := hrest r (by simp)
      simp [List.takeWhile_cons, List.dropWhile_cons, hr]
  | cons a A' ih =>
    have ha : isDigitChar a = true := hA a (List.mem_cons_self _ _)
    have ih2 := ih fun c hc => hA c (List.mem_cons_of_mem _ hc)
    simp [List.takeWhile_cons, List.dropWhile_cons, ha, ih2.1, ih2.2]

theorem rt_parseNatNum (m : Nat) {rest : List Char} (hrest : noDigitHead rest) :
    parseNatNum (natToChars m ++ rest) = some (m, rest) := by
  have hspan := takeWhile_dropWhile_append (natToChars_digits m) hrest
  obtain ⟨d, t, hdt, _⟩ := natToChars_cons m
  have hne : (natToChars m).isEmpty = false := by rw [hdt]; rfl
  simp [parseNatNum, hspan.1, hspan.2, hne, digitsToNat_natToChars m]

theorem rt_parseNum (n : Int) {rest : List Char} (hrest : noDigitHead rest) :
    parseNum (intToChars n ++ rest) = some (Json.num n, rest) := by
  by_cases hneg : n < 0
  · rw [intToChars, if_pos hneg, List.cons_append, parseNum]
    rw [if_pos (by simp)]
    simp only [List.drop_succ_cons, List.drop_zero]
    rw [rt_parseNatNum _ hrest]
    have htn : ((((-n).toNat : Nat) : Int)) = -n := Int.toNat_of_nonneg (by omega)
    simp [htn]
  · rw [intToChars, if_neg hneg]
    obtain ⟨d, t, hdt, hd⟩ := natToChars_cons n.toNat
    have hdm : d ≠ '-' := (digit_no_clash hd).2.2.2.2.2.2.1
    rw [parseNum, if_neg]
    · rw [rt_parseNatNum _ hrest]
      have htn : (((n.toNat : Nat) : Int)) = n := Int.toNat_of_nonneg (by omega)
      simp [htn]
    · rw [hdt, List.cons_append]
      simp [hdm]

theorem rt_parseStrAux : ∀ (s rest : List Char),
    parseStrAux (escStr s ++ ('"' :: rest)) = some (s, rest) := by
  intro s
  induction s with
  | nil =>
    intro rest
    simp [escStr, parseStrAux]
  | cons c s' ih =>
    intro rest
    have ih' : parseStrAux (s'.flatMap escapeChar ++ ('"' :: rest)) = some (s', rest) := by
      have h := ih rest
      simp only [escStr] at h
      exact h
    rw [escStr, List.flatMap_cons, List.append_assoc]
    by_cases h1 : c = '"'
    · subst h1; simp [escapeChar, parseStrAux, parseEsc, unescape, ih']
    · by_cases h2 : c = '\\'
      · subst h2; simp [escapeChar, parseStrAux, parseEsc, unescape, ih']
      · by_cases h3 : c = '\n'
        · subst h3; simp [escapeChar, parseStrAux, parseEsc, unescape, ih']
        · by_cases h4 : c = '\t'
          · subst h4; simp [escapeChar, parseStrAux, parseEsc, unescape, ih']
          · by_cases h5 : c = '\r'
            · subst h5; simp [escapeChar, parseStrAux, parseEsc, unescape, ih']
            · by_cases h6 : c = '\x08'
              · subst h6; simp [escapeChar, parseStrAux, parseEsc, unescape, ih']
              · by_cases h7 : c = '\x0c'
                · subst h7
                  simp [escapeChar, parseStrAux, parseEsc, unescape, ih']
                · rw [escapeChar, if_neg h1, if_neg h2, if_neg h3, if_neg h4,
                    if_neg h5, if_neg h6, if_neg h7, List.singleton_append]
                  simp [parseStrAux, h1, h2, ih']

theorem strL_null : strL "null" = ['n', 'u', 'l', 'l'] := rfl

theorem strL_true : strL "true" = ['t', 'r', 'u', 'e'] := rfl

theorem strL_false : strL "false" = ['f', 'a', 'l', 's', 'e'] := rfl

theorem intToChars_ne_nil (n : Int) : intToChars n ≠ [] := by
  rw [intToChars]
  split
  · simp
  · obtain ⟨d, t, hdt, _⟩ := natToChars_cons n.toNat
    rw [hdt]
    simp

theorem printItems_decomp (ind : Nat) (x : Json) (xs : List Json) :
    printItems ind (x :: xs) =
      spacesL (ind + 2) ++ (printJson (ind + 2) x ++ afterItems ind xs) := by
  cases xs with
  | nil => simp [printItems, afterItems]
  | cons y ys => simp [printItems, afterItems]

theorem printMembers_decomp (ind : Nat) (m : List Char × Json)
    (ms : List (List Char × Json)) :
    printMembers ind (m :: ms) =
      spacesL (ind + 2) ++ (printMember ind m ++ afterMembers ind ms) := by
  cases ms with
  | nil => simp [printMembers, afterMembers]
  | cons m2 ms2 => simp [printMembers, afterMembers]

theorem print_head (ind : Nat) (v : Json) :
    ∃ c t, printJson ind v = c :: t ∧ isWsChar c = false ∧ c ≠ ']' ∧ c ≠ '\x7d' := by
  cases v with
  | null =>
    refine ⟨'n', ['u', 'l', 'l'], ?_, by decide, by decide, by decide⟩
    simp only [printJson, strL_null]
  | bool b =>
    cases b
    · refine ⟨'f', ['a', 'l', 's', 'e'], ?_, by decide, by decide, by decide⟩
      simp only [printJson, strL_false]
    · refine ⟨'t', ['r', 'u', 'e'], ?_, by decide, by decide, by decide⟩
      simp only [printJson, strL_true]
  | num n =>
    by_cases hneg : n < 0
    · refine ⟨'-', natToChars (-n).toNat, ?_, by decide, by decide, by decide⟩
      simp only [printJson, intToChars, if_pos hneg]
    · obtain ⟨d, t, hdt, hd⟩ := natToChars_cons n.toNat
      have hc := digit_no_clash hd
      refine ⟨d, t, ?_, hc.2.2.2.2.2.2.2.2.2, hc.2.2.2.2.2.2.2.1, hc.2.2.2.2.2.2.2.2.1⟩
      simp only [printJson, intToChars, if_neg hneg, hdt]
  | str s =>
    refine ⟨'"', escStr s ++ ['"'], ?_, by decide, by decide, by decide⟩
    simp only [printJson]
  | arr l =>
    cases l with
    | nil =>
      refine ⟨'[', [']'], ?_, by decide, by decide, by decide⟩
      have h : printJson ind (Json.arr []) = strL "[]" := by simp only [printJson]
      rw [h]
      rfl
    | cons x xs =>
      refine ⟨'[', '\n' :: (printItems ind (x :: xs) ++ '\n' :: (spacesL ind ++ [']'])),
        ?_, by decide, by decide, by decide⟩
      simp only [printJson]
  | obj l =>
    cases l with
    | nil =>
      refine ⟨'\x7b', ['\x7d'], ?_, by decide, by decide, by decide⟩
      have h : printJson ind (Json.obj []) = strL "\x7b\x7d" := by simp only [printJson]
      rw [h]
      rfl
    | cons m ms =>
      refine ⟨'\x7b', '\n' :: (printMembers ind (m :: ms) ++ '\n' :: (spacesL ind ++ ['\x7d'])),
        ?_, by decide, by decide, by decide⟩
      simp only [printJson]

mutual

theorem sz_val (ind : Nat) (v : Json) : jsize v ≤ (printJson ind v).length := by
  cases v with
  | null =>
    simp only [jsize, printJson, strL_null]
    decide
  | bool b =>
    cases b
    · simp only [jsize, printJson, strL_false]
      decide
    · simp only [jsize, printJson, strL_true]
      decide
  | num n =>
    have h := List.length_pos.mpr (intToChars_ne_nil n)
    simp only [jsize, printJson]
    omega
  | str s =>
    simp only [jsize, printJson, List.length_cons]
    omega
  | arr l =>
    cases l with
    | nil =>
      have h : (strL "[]").length = 2 := rfl
      simp only [jsize, jsizeL, printJson, h]
      omega
    | cons x xs =>
      have hi := sz_items ind x xs
      simp only [jsize, printJson, List.length_cons, List.length_append, spacesL,
        List.length_replicate, List.length_singleton]
      omega
  | obj l =>
    cases l with
    | nil =>
      have h : (strL "\x7b\x7d").length = 2 := rfl
      simp only [jsize, jsizeM, printJson, h]
      omega
    | cons m ms =>
      obtain ⟨k, v⟩ := m
      have hi := sz_members ind k v ms
      simp only [jsize, printJson, List.length_cons, List.length_append, spacesL,
        List.length_replicate, List.length_singleton]
      omega
termination_by sizeOf v

theorem sz_items (ind : Nat) (x : Json) (xs : List Json) :
    jsizeL (x :: xs) ≤ (printItems ind (x :: xs)).length + 1 := by
  cases xs with
  | nil =>
    have hv := sz_val (ind + 2) x
    simp only [jsizeL, printItems, List.length_append, spacesL, List.length_replicate]
    omega
  | cons y ys =>
    have hv := sz_val (ind + 2) x
    have hi := sz_items ind y ys
    simp only [jsizeL] at hi ⊢
    simp only [printItems, List.length_append, List.length_cons, spacesL,
      List.length_replicate]
    omega
termination_by sizeOf x + sizeOf xs

theorem sz_members (ind : Nat) (k : List Char) (v : Json)
    (ms : List (List Char × Json)) :
    jsizeM ((k, v) :: ms) ≤ (printMembers ind ((k, v) :: ms)).length + 1 := by
  cases ms with
  | nil =>
    have hv := sz_val (ind + 2) v
    simp only [jsizeM, printMembers, printMember, List.length_append, List.length_cons,
      spacesL, List.length_replicate]
    omega
  | cons m2 ms2 =>
    obtain ⟨k2, v2⟩ := m2
    have hv := sz_val (ind + 2) v
    have hi := sz_members ind k2 v2 ms2
    simp only [jsizeM] at hi ⊢
    simp only [printMembers, printMember, List.length_append, List.length_cons, spacesL,
      List.length_replicate]
    omega
termination_by sizeOf v + sizeOf ms

end

theorem wsOnly_spaces (k : Nat) : wsOnly (spacesL k) := by
  intro c hc
  rw [List.eq_of_mem_replicate hc]
  decide

theorem skipWs_spaces (k : Nat) {c : Char} (h : isWsChar c = false) (l : List Char) :
    skipWs (spacesL k ++ (c :: l)) = c :: l := by
  rw [skipWs_append_ws (wsOnly_spaces k), skipWs_cons_not h]

theorem parseVal_strip_ws (fuel : Nat) {pre : List Char} (h : wsOnly pre)
    (l : List Char) : parseVal (fuel + 1) (pre ++ l) = parseVal (fuel + 1) l := by
  simp only [parseVal]
  rw [skipWs_append_ws h]

theorem parseVal_lbrack (fuel : Nat) (cs : List Char) :
    parseVal (fuel + 1) ('[' :: cs) =
      (if (skipWs cs).head? = some ']' then some (Json.arr [], (skipWs cs).drop 1)
       else (parseItems fuel (skipWs cs)).map fun p => (Json.arr p.1, p.2)) := by
  simp only [parseVal]
  rw [skipWs_cons_not (by decide)]
  simp

theorem parseVal_lbrace (fuel : Nat) (cs : List Char) :
    parseVal (fuel + 1) ('\x7b' :: cs) =
      (if (skipWs cs).head? = some '\x7d' then some (Json.obj [], (skipWs cs).drop 1)
       else (parseMembers fuel (skipWs cs)).map fun p => (Json.obj p.1, p.2)) := by
  simp only [parseVal]
  rw [skipWs_cons_not (by decide)]
  simp

mutual

theorem rt_val : ∀ (fuel : Nat) (v : Json) (ind : Nat) (pre rest : List Char),
    wsOnly pre → noDigitHead rest → jsize v ≤ fuel →
    parseVal fuel (pre ++ (printJson ind v ++ rest)) = some (v, rest)
  | 0, v, _, _, _, _, _, hsz => by
    have := jsize_pos v
    omega
  | fuel+1, v, ind, pre, rest, hpre, hrest, hsz => by
    cases v with
    | null =>
      have hp : printJson ind Json.null = 'n' :: (['u', 'l', 'l'] : List Char) := by
        simp only [printJson, strL_null]
      rw [hp, List.cons_append]
      simp only [parseVal]
      rw [skipWs_append_ws hpre, skipWs_cons_not (by decide)]
      simp [strL_null]
    | bool b =>
      cases b
      · have hp : printJson ind (Json.bool false) =
            'f' :: (['a', 'l', 's', 'e'] : List Char) := by
          simp only [printJson, strL_false]
        rw [hp, List.cons_append]
        simp only [parseVal]
        rw [skipWs_append_ws hpre, skipWs_cons_not (by decide)]
        simp [strL_false]
      · have hp : printJson ind (Json.bool true) =
            't' :: (['r', 'u', 'e'] : List Char) := by
          simp only [printJson, strL_true]
        rw [hp, List.cons_append]
        simp only [parseVal]
        rw [skipWs_append_ws hpre, skipWs_cons_not (by decide)]
        simp [strL_true]
    | num n =>
      have hnum := rt_parseNum n hrest
      simp only [printJson]
      by_cases hneg : n < 0
      · rw [intToChars, if_pos hneg, List.cons_append] at hnum ⊢
        simp only [parseVal]
        rw [skipWs_append_ws hpre, skipWs_cons_not (by decide)]
        simp [hnum]
      · obtain ⟨d, t, hdt, hd⟩ := natToChars_cons n.toNat
        have hc := digit_no_clash hd
        rw [intToChars, if_neg hneg, hdt, List.cons_append] at hnum ⊢
        simp only [parseVal]
        rw [skipWs_append_ws hpre, skipWs_cons_not hc.2.2.2.2.2.2.2.2.2]
        simp [hc.1, hc.2.1, hc.2.2.1, hc.2.2.2.1, hc.2.2.2.2.1, hc.2.2.2.2.2.1, hnum]
    | str s =>
      simp only [printJson]
      rw [List.cons_append]
      simp only [parseVal]
      rw [skipWs_append_ws hpre, skipWs_cons_not (by decide)]
      have hstr := rt_parseStrAux s rest
      simp [List.append_assoc, hstr]
    | arr l =>
      cases l with
      | nil =>
        have hp : printJson ind (Json.arr []) = '[' :: ([']'] : List Char) := by
          simp only [printJson]
          rfl
        rw [hp, List.cons_append]
        simp only [parseVal]
        rw [skipWs_append_ws hpre, skipWs_cons_not (by decide), List.singleton_append]
        simp [skipWs, isWsChar]
      | cons x xs =>
        obtain ⟨c0, t0, hct, hcw, hc1, _⟩ := print_head (ind + 2) x
        have hszL : jsizeL (x :: xs) ≤ fuel := by
          simp only [jsize] at hsz
          omega
        have hitems := rt_items fuel ind x xs [] rest wsOnly_nil hrest hszL
        rw [List.nil_append] at hitems
        simp only [printJson]
        rw [List.cons_append, List.cons_append]
        rw [parseVal_strip_ws fuel hpre, parseVal_lbrack]
        have hs2 : skipWs ('\n' :: ((printItems ind (x :: xs) ++ '\n' :: (spacesL ind ++ [']'])) ++ rest))
            = printJson (ind + 2) x ++
                (afterItems ind xs ++ ('\n' :: (spacesL ind ++ (']' :: rest)))) := by
          rw [printItems_decomp]
          rw [show ('\n' :: ((spacesL (ind + 2) ++ (printJson (ind + 2) x ++ afterItems ind xs) ++ '\n' :: (spacesL ind ++ [']'])) ++ rest))
              = ('\n' :: spacesL (ind + 2)) ++ (printJson (ind + 2) x ++
                  (afterItems ind xs ++ ('\n' :: (spacesL ind ++ (']' :: rest))))) from by
            simp [List.append_assoc]]
          rw [skipWs_append_ws (wsOnly_newline_indent _)]
          rw [hct, List.cons_append, skipWs_cons_not hcw, ← List.cons_append, ← hct]
        rw [hs2, hct, List.cons_append, List.head?_cons]
        rw [if_neg (by simp [hc1])]
        rw [hct, List.cons_append] at hitems
        rw [hitems]
        rfl
    | obj l =>
      cases l with
      | nil =>
        have hp : printJson ind (Json.obj []) = '\x7b' :: (['\x7d'] : List Char) := by
          simp only [printJson]
          rfl
        rw [hp, List.cons_append]
        simp only [parseVal]
        rw [skipWs_append_ws hpre, skipWs_cons_not (by decide), List.singleton_append]
        simp [skipWs, isWsChar]
      | cons m ms =>
        obtain ⟨k, v⟩ := m
        have hszM : jsizeM ((k, v) :: ms) ≤ fuel := by
          simp only [jsize] at hsz
          omega
        have hmem := rt_members fuel ind k v ms [] rest wsOnly_nil hrest hszM
        rw [List.nil_append] at hmem
        have hpm : printMember ind (k, v) =
            '"' :: (escStr k ++ ('"' :: (':' :: (' ' :: printJson (ind + 2) v)))) := by
          simp only [printMember]
        simp only [printJson]
        rw [List.cons_append, List.cons_append]
        rw [parseVal_strip_ws fuel hpre, parseVal_lbrace]
        have hs2 : skipWs ('\n' :: ((printMembers ind ((k, v) :: ms) ++ '\n' :: (spacesL ind ++ ['\x7d'])) ++ rest))
            = printMember ind (k, v) ++
                (afterMembers ind ms ++ ('\n' :: (spacesL ind ++ ('\x7d' :: rest)))) := by
          rw [printMembers_decomp]
          rw [show ('\n' :: ((spacesL (ind + 2) ++ (printMember ind (k, v) ++ afterMembers ind ms) ++ '\n' :: (spacesL ind ++ ['\x7d'])) ++ rest))
              = ('\n' :: spacesL (ind + 2)) ++ (printMember ind (k, v) ++
                  (afterMembers ind ms ++ ('\n' :: (spacesL ind ++ ('\x7d' :: rest))))) from by
            simp [List.append_assoc]]
          rw [skipWs_append_ws (wsOnly_newline_indent _)]
          rw [hpm, List.cons_append, skipWs_cons_not (by decide), ← List.cons_append, ← hpm]
        rw [hs2, hpm, List.cons_append, List.head?_cons]
        rw [if_neg (by decide)]
        rw [hpm, List.cons_append] at hmem
        rw [hmem]
        rfl
termination_by fuel _ _ _ _ => fuel

theorem rt_items : ∀ (fuel : Nat) (ind : Nat) (x : Json) (xs : List Json)
    (pre rest : List Char), wsOnly pre → noDigitHead rest → jsizeL (x :: xs) ≤ fuel →
    parseItems fuel (pre ++ (printJson (ind + 2) x ++
      (afterItems ind xs ++ ('\n' :: (spacesL ind ++ (']' :: rest)))))) = some (x :: xs, rest)
  | 0, _, x, xs, _, _, _, _, hsz => by
    simp only [jsizeL] at hsz
    have := jsize_pos x
    omega
  | fuel+1, ind, x, xs, pre, rest, hpre, hrest, hsz => by
    have hT : noDigitHead (afterItems ind xs ++ ('\n' :: (spacesL ind ++ (']' :: rest)))) := by
      cases xs with
      | nil =>
        simp only [afterItems, List.nil_append]
        exact noDigitHead_cons (by decide) _
      | cons y ys =>
        simp only [afterItems]
        rw [List.cons_append]
        exact noDigitHead_cons (by decide) _
    have hszx : jsize x ≤ fuel := by
      simp only [jsizeL] at hsz
      omega
    have hv := rt_val fuel x (ind + 2) pre
      (afterItems ind xs ++ ('\n' :: (spacesL ind ++ (']' :: rest)))) hpre hT hszx
    simp only [parseItems]
    cases xs with
    | nil =>
      simp only [afterItems, List.nil_append] at hv ⊢
      rw [hv]
      have hskipT : skipWs ('\n' :: (spacesL ind ++ (']' :: rest))) = ']' :: rest := by
        rw [show ('\n' :: (spacesL ind ++ (']' :: rest))) = ('\n' :: spacesL ind) ++ (']' :: rest) from by simp]
        rw [skipWs_append_ws (wsOnly_newline_indent _), skipWs_cons_not (by decide)]
      simp [hskipT]
    | cons y ys =>
      simp only [afterItems] at hv ⊢
      rw [hv]
      have hszrec : jsizeL (y :: ys) ≤ fuel := by
        simp only [jsizeL] at hsz ⊢
        omega
      have hrec := rt_items fuel ind y ys ('\n' :: spacesL (ind + 2)) rest
        (wsOnly_newline_indent _) hrest hszrec
      have hz : ('\n' :: (printItems ind (y :: ys) ++ ('\n' :: (spacesL ind ++ (']' :: rest)))))
          = ('\n' :: spacesL (ind + 2)) ++ (printJson (ind + 2) y ++
              (afterItems ind ys ++ ('\n' :: (spacesL ind ++ (']' :: rest))))) := by
        rw [printItems_decomp]
        simp [List.append_assoc]
      rw [← hz] at hrec
      simp [skipWs, isWsChar, hrec]
termination_by fuel _ _ _ _ _ => fuel

theorem rt_members : ∀ (fuel : Nat) (ind : Nat) (k : List Char) (v : Json)
    (ms : List (List Char × Json)) (pre rest : List Char),
    wsOnly pre → noDigitHead rest → jsizeM ((k, v) :: ms) ≤ fuel →
    parseMembers fuel (pre ++ (printMember ind (k, v) ++
      (afterMembers ind ms ++ ('\n' :: (spacesL ind ++ ('\x7d' :: rest)))))) =
      some ((k, v) :: ms, rest)
  | 0, _, _, v, ms, _, _, _, _, hsz => by
    simp only [jsizeM] at hsz
    have := jsize_pos v
    omega
  | fuel+1, ind, k, v, ms, pre, rest, hpre, hrest, hsz => by
    have hT : noDigitHead (afterMembers ind ms ++ ('\n' :: (spacesL ind ++ ('\x7d' :: rest)))) := by
      cases ms with
      | nil =>
        simp only [afterMembers, List.nil_append]
        exact noDigitHead_cons (by decide) _
      | cons m2 ms2 =>
        simp only [afterMembers]
        rw [List.cons_append]
        exact noDigitHead_cons (by decide) _
    have hszv : jsize v ≤ fuel := by
      simp only [jsizeM] at hsz
      omega
    have hpm : printMember ind (k, v) =
        '"' :: (escStr k ++ ('"' :: (':' :: (' ' :: printJson (ind + 2) v)))) := by
      simp only [printMember]
    simp only [parseMembers]
    rw [hpm]
    rw [show (pre ++ (('"' :: (escStr k ++ ('"' :: (':' :: (' ' :: printJson (ind + 2) v))))) ++
        (afterMembers ind ms ++ ('\n' :: (spacesL ind ++ ('\x7d' :: rest))))))
        = pre ++ ('"' :: (escStr k ++ ('"' :: (':' :: (' ' :: (printJson (ind + 2) v ++
            (afterMembers ind ms ++ ('\n' :: (spacesL ind ++ ('\x7d' :: rest)))))))))) from by
      simp [List.append_assoc]]
    rw [skipWs_append_ws hpre, skipWs_cons_not (by decide)]
    have hstr := rt_parseStrAux k
      (':' :: (' ' :: (printJson (ind + 2) v ++
        (afterMembers ind ms ++ ('\n' :: (spacesL ind ++ ('\x7d' :: rest)))))))
    have hv := rt_val fuel v (ind + 2) [' ']
      (afterMembers ind ms ++ ('\n' :: (spacesL ind ++ ('\x7d' :: rest))))
      wsOnly_space hT hszv
    rw [List.singleton_append] at hv
    cases ms with
    | nil =>
      simp only [afterMembers, List.nil_append] at hstr hv ⊢
      simp [hstr, hv, skipWs, isWsChar, skipWs_spaces]
    | cons m2 ms2 =>
      obtain ⟨k2, v2⟩ := m2
      simp only [afterMembers, List.cons_append, List.append_assoc] at hstr hv ⊢
      have hszrec : jsizeM ((k2, v2) :: ms2) ≤ fuel := by
        simp only [jsizeM] at hsz ⊢
        omega
      have hrec := rt_members fuel ind k2 v2 ms2 ('\n' :: spacesL (ind + 2)) rest
        (wsOnly_newline_indent _) hrest hszrec
      have hz : ('\n' :: (printMembers ind ((k2, v2) :: ms2) ++ ('\n' :: (spacesL ind ++ ('\x7d' :: rest)))))
          = ('\n' :: spacesL (ind + 2)) ++ (printMember ind (k2, v2) ++
              (afterMembers ind ms2 ++ ('\n' :: (spacesL ind ++ ('\x7d' :: rest))))) := by
        rw [printMembers_decomp]
        simp [List.append_assoc]
      rw [← hz] at hrec
      simp [hstr, hv, skipWs, isWsChar, hrec]
termination_by fuel _ _ _ _ _ _ => fuel

end

theorem jsonParse_stringify2 (v : Json) : jsonParse (stringify2 v) = some v := by
  unfold jsonParse stringify2
  have hsz : jsize v ≤ (printJson 0 v).length + 1 :=
    le_trans (sz_val 0 v) (Nat.le_succ _)
  have h := rt_val ((printJson 0 v).length + 1) v 0 [] [] wsOnly_nil noDigitHead_nil hsz
  rw [List.nil_append, List.append_nil] at h
  rw [h]
  simp [skipWs]

theorem chunk48_ne_nil {l : List Char} (h : l ≠ []) : chunk48 l ≠ [] := by
  cases l with
  | nil => exact absurd rfl h
  | cons c cs => simp [chunk48]

theorem dropLast_cons_ne {a : List Char} {L : List (List Char)} (h : L ≠ []) :
    (a :: L).dropLast = a :: L.dropLast := by
  cases L with
  | nil => exact absurd rfl h
  | cons b t => rfl

theorem getLast_cons_ne {a : List Char} {L : List (List Char)} (h : L ≠ []) :
    (a :: L).getLast? = L.getLast? := by
  rw [show a :: L = [a] ++ L from rfl]
  exact List.getLast?_append_of_ne_nil [a] h

theorem chunk48_joinSep_structure :
    ∀ (n : Nat) (pairs : List (List Char)), pairs.length ≤ n →
      (∀ pr ∈ pairs, pr.length = 2) →
      (∀ l ∈ (chunk48 (joinSepC ' ' pairs)).dropLast,
        ∃ ps : List (List Char), (∀ pr ∈ ps, pr ∈ pairs) ∧ ps.length = 16 ∧
          l = ps.flatMap (fun pr => pr ++ [' '])) ∧
      (∀ l, (chunk48 (joinSepC ' ' pairs)).getLast? = some l →
        ∃ ps : List (List Char), (∀ pr ∈ ps, pr ∈ pairs) ∧ 1 ≤ ps.length ∧
          ps.length ≤ 16 ∧ l = joinSepC ' ' ps) := by
  intro n
  induction n with
  | zero =>
    intro pairs hle _
    have hpairs : pairs = [] := List.eq_nil_of_length_eq_zero (Nat.le_zero.mp hle)
    subst hpairs
    constructor
    · intro l hl
      simp [joinSepC, chunk48] at hl
    · intro l hl
      simp [joinSepC, chunk48] at hl
  | succ n ih =>
    intro pairs hle h2
    by_cases hnil : pairs = []
    · subst hnil
      constructor
      · intro l hl
        simp [joinSepC, chunk48] at hl
      · intro l hl
        simp [joinSepC, chunk48] at hl
    · have hpos : 0 < pairs.length := List.length_pos.mpr hnil
      by_cases hsmall : pairs.length ≤ 16
      · have hlen := joinSepC_length_pairs pairs h2 hnil
        have hne : joinSepC ' ' pairs ≠ [] := by
          apply List.length_pos.mp
          rw [hlen]
          omega
        rw [chunk48_short _ hne (by rw [hlen]; omega)]
        constructor
        · intro l hl
          simp at hl
        · intro l hl
          simp only [List.getLast?_singleton, Option.some.injEq] at hl
          exact ⟨pairs, fun pr hpr => hpr, hpos, hsmall, hl.symm⟩
      · have h17 : 17 ≤ pairs.length := by omega
        have hAlen : ((pairs.take 16).flatMap (fun pr => pr ++ [' '])).length = 48 := by
          rw [flatMap_pairs_length _ (fun pr hpr => h2 pr (List.take_subset 16 pairs hpr))]
          rw [List.length_take]
          omega
        have hdlen : (pairs.drop 16).length = pairs.length - 16 :=
          List.length_drop 16 pairs
        have hdnil : pairs.drop 16 ≠ [] := by
          intro h0
          rw [h0] at hdlen
          simp at hdlen
          omega
        have hjdnil : joinSepC ' ' (pairs.drop 16) ≠ [] := by
          apply List.length_pos.mp
          rw [joinSepC_length_pairs _ (fun pr hpr => h2 pr (List.drop_subset 16 pairs hpr)) hdnil]
          omega
        have hLne : chunk48 (joinSepC ' ' (pairs.drop 16)) ≠ [] := chunk48_ne_nil hjdnil
        rw [joinSepC_split 16 pairs (by omega), chunk48_append48 _ _ hAlen]
        obtain ⟨ihd, ihl⟩ :=
          ih (pairs.drop 16) (by omega)
            (fun pr hpr => h2 pr (List.drop_subset 16 pairs hpr))
        constructor
        · intro l hl
          rw [dropLast_cons_ne hLne] at hl
          rcases List.mem_cons.mp hl with hA | hrest
          · exact ⟨pairs.take 16, fun pr hpr => List.take_subset 16 pairs hpr,
              by rw [List.length_take]; omega, hA⟩
          · obtain ⟨ps, hmem, h16, hshape⟩ := ihd l hrest
            exact ⟨ps, fun pr hpr => List.drop_subset 16 pairs (hmem pr hpr), h16, hshape⟩
        · intro l hl
          rw [getLast_cons_ne hLne] at hl
          obtain ⟨ps, hmem, h1, h16, hshape⟩ := ihl l hl
          exact ⟨ps, fun pr hpr => List.drop_subset 16 pairs (hmem pr hpr), h1, h16, hshape⟩

/-! ## Claim theorems -/

/-- C1, counterexample. The claim says both the `srcdoc` attribute value
(`escQuote`) and the raw-source view (`escLtGt`) are escaped for all three
of `<`, `>`, `"`. On the payload text `<"` the attribute value keeps `<`
unescaped, and the raw-source view keeps `"` unescaped. -/
theorem c1_counterexample :
    (escQuote (strL "<\"")).contains '<' = true ∧
    (escLtGt (strL "<\"")).contains '"' = true := by
  constructor <;> decide

/-- C1, amended: the `srcdoc` attribute value built by `handleHTML` escapes
every `"` (its output contains no double quote), and the raw-source view
escapes every `<` and `>` (its output contains neither); the attribute
value may still contain `<`/`>` and the raw view may still contain `"`. -/
theorem c1_escaping_amended (t : List Char) :
    (escQuote t).contains '"' = false ∧
    (escLtGt t).contains '<' = false ∧
    (escLtGt t).contains '>' = false := by
  refine ⟨contains_eq_false_of_not_mem (quote_not_mem_escQuote t),
          contains_eq_false_of_not_mem ?_,
          contains_eq_false_of_not_mem (gt_not_mem_escGt (escLt t))⟩
  exact escGt_preserves_no_lt (lt_not_mem_escLt t)

/-- C2, counterexample. The claim asserts every dump line is hex pairs
separated by single spaces (at most 24 pairs). On a 17-byte payload the
first chunk of `.match(/.{1,48}/g)` is 48 characters = 16 pairs each
followed by a space, so the line ends with a trailing space and is not a
pure space-separated pair list (`split(' ')` yields a trailing empty
piece). -/
theorem c2_counterexample :
    strL "00 00 00 00 00 00 00 00 00 00 00 00 00 00 00 00 " ∈
      dumpLines (List.replicate 17 (0 : Fin 256)) ∧
    lineOK (strL "00 00 00 00 00 00 00 00 00 00 00 00 00 00 00 00 ") = false := by
  constructor
  · unfold dumpLines
    have hb : hexBody (List.replicate 17 (0 : Fin 256)) =
        strL "00 00 00 00 00 00 00 00 00 00 00 00 00 00 00 00 " ++ strL "00" := by
      decide
    rw [hb, chunk48_append48 _ _ (by decide)]
    exact List.mem_cons_self _ _
  · decide

/-- C2, amended: the dump's lines are separated by newlines, and every
non-final line is a full 48-character chunk consisting of exactly 16 hex
pairs each followed by a single space (so it ends with a trailing space
and holds 16 bytes, within the claimed at-most-24), while the final line
is between 1 and 16 hex pairs joined by single spaces, with no trailing
space. -/
theorem c2_line_structure_amended (p : List (Fin 256)) :
    (∀ l ∈ (dumpLines p).dropLast,
      ∃ pairs : List (List Char),
        (∀ pr ∈ pairs, hexPairStr pr = true) ∧ pairs.length = 16 ∧
        l = pairs.flatMap (fun pr => pr ++ [' ']) ∧ l.length = 48) ∧
    (∀ l, (dumpLines p).getLast? = some l →
      ∃ pairs : List (List Char),
        (∀ pr ∈ pairs, hexPairStr pr = true) ∧
        1 ≤ pairs.length ∧ pairs.length ≤ 16 ∧ l = joinSepC ' ' pairs) := by
  have h2 : ∀ pr ∈ (p.take 256).map hexPair, pr.length = 2 := by
    intro pr hpr
    rcases List.mem_map.mp hpr with ⟨b, _, rfl⟩
    exact hexPair_length b
  obtain ⟨hdrop, hlast⟩ :=
    chunk48_joinSep_structure ((p.take 256).map hexPair).length
      ((p.take 256).map hexPair) le_rfl h2
  constructor
  · intro l hmem
    unfold dumpLines hexBody at hmem
    obtain ⟨ps, hmemp, h16, hshape⟩ := hdrop l hmem
    have hlen2 : ∀ pr ∈ ps, pr.length = 2 := fun pr hpr => h2 pr (hmemp pr hpr)
    refine ⟨ps, ?_, h16, hshape, ?_⟩
    · intro pr hpr
      rcases List.mem_map.mp (hmemp pr hpr) with ⟨b, _, rfl⟩
      exact hexPair_is_hex b
    · rw [hshape, flatMap_pairs_length ps hlen2, h16]
  · intro l hlastmem
    unfold dumpLines hexBody at hlastmem
    obtain ⟨ps, hmemp, h1, h16, hshape⟩ := hlast l hlastmem
    refine ⟨ps, ?_, h1, h16, hshape⟩
    intro pr hpr
    rcases List.mem_map.mp (hmemp pr hpr) with ⟨b, _, rfl⟩
    exact hexPair_is_hex b

/-- C2, witness for the amended theorem, at a 17-byte payload whose dump
has one full non-final line and a one-pair final line. -/
theorem c2_amended_witness :
    (strL "00 00 00 00 00 00 00 00 00 00 00 00 00 00 00 00 " ∈
      (dumpLines (List.replicate 17 (0 : Fin 256))).dropLast) ∧
    (∃ pairs : List (List Char),
      (∀ pr ∈ pairs, hexPairStr pr = true) ∧ pairs.length = 16 ∧
      strL "00 00 00 00 00 00 00 00 00 00 00 00 00 00 00 00 " =
        pairs.flatMap (fun pr => pr ++ [' ']) ∧
      (strL "00 00 00 00 00 00 00 00 00 00 00 00 00 00 00 00 ").length = 48) ∧
    ((dumpLines (List.replicate 17 (0 : Fin 256))).getLast? = some ['0', '0']) ∧
    (∃ pairs : List (List Char),
      (∀ pr ∈ pairs, hexPairStr pr = true) ∧
      1 ≤ pairs.length ∧ pairs.length ≤ 16 ∧ ['0', '0'] = joinSepC ' ' pairs) := by
  have hd : dumpLines (List.replicate 17 (0 : Fin 256)) =
      [strL "00 00 00 00 00 00 00 00 00 00 00 00 00 00 00 00 ", ['0', '0']] := by
    unfold dumpLines
    have hb : hexBody (List.replicate 17 (0 : Fin 256)) =
        strL "00 00 00 00 00 00 00 00 00 00 00 00 00 00 00 00 " ++ strL "00" := by
      decide
    rw [hb, chunk48_append48 _ _ (by decide),
      chunk48_short (strL "00") (by decide) (by decide)]
    decide
  obtain ⟨hall, hlast⟩ := c2_line_structure_amended (List.replicate 17 (0 : Fin 256))
  have hm : strL "00 00 00 00 00 00 00 00 00 00 00 00 00 00 00 00 " ∈
      (dumpLines (List.replicate 17 (0 : Fin 256))).dropLast := by
    rw [hd]
    decide
  have hg : (dumpLines (List.replicate 17 (0 : Fin 256))).getLast? = some ['0', '0'] := by
    rw [hd]
    decide
  exact ⟨hm, hall _ hm, hg, hlast _ hg⟩

/-- C7: stripped of its separators (spaces and newlines), the hex preview
is exactly the concatenated hex pairs of `bytes.slice(0, 256)` — the dump
covers exactly the first `min(length, 256)` bytes, all of a 256-byte
payload and only the first 256 bytes of a longer one. -/
theorem c7_hexdump_covers_min (p : List (Fin 256)) :
    (hexPreview p).filter nonSep = ((p.take 256).map hexPair).flatten ∧
    (p.take 256).length = min 256 p.length := by
  constructor
  · unfold hexPreview dumpLines hexBody
    rw [joinSepC_filter (by decide), ← filter_flatten_comm, flatten_chunk48,
      joinSepC_filter (by decide), List.map_map]
    have : (List.filter nonSep ∘ hexPair) = hexPair := by
      funext b
      exact hexPair_filter_nonSep b
    rw [this]
  · exact List.length_take 256 p

/-- C4, counterexample. The claim asserts `classify "text/json" =
StructuredData`; in the code the `isText` branch (`text/` prefix, not
HTML) is checked before the `isJSON` branch, so `text/json` is classified
as plain text. -/
theorem c4_counterexample : classify "text/json" = Category.plainText := by
  decide

/-- C4, amended: `classify` is a total function satisfying
`classify "image/png" = Image`, `classify "text/html" = MarkupDocument`
(the markup rule precedes the `text/` prefix rule), and
`classify "application/octet-stream" = Binary`; but `text/json` falls to
`PlainText`, because the `text/` prefix rule precedes the JSON rule —
only `application/json` reaches `StructuredData`. -/
theorem c4_classify_amended :
    classify "image/png" = Category.image ∧
    classify "text/html" = Category.markupDocument ∧
    classify "text/json" = Category.plainText ∧
    classify "application/json" = Category.structuredData ∧
    classify "application/octet-stream" = Category.binary := by
  refine ⟨by decide, by decide, by decide, by decide, by decide⟩

/-- C5: resolving with an absent declared type equals resolving with the
empty-string declared type; the result always has positive length (never
the empty type); an absent declared type falls back to the detector's
answer; and when the detector is also silent the sentinel
`application/octet-stream` is produced. -/
theorem c5_resolution_never_empty :
    (∀ detected, resolveMimeType none detected = resolveMimeType (some "") detected) ∧
    (∀ contentType detected, 0 < (resolveMimeType contentType detected).length) ∧
    (∀ m, (m == "") = false → resolveMimeType none (some m) = m) ∧
    resolveMimeType none none = "application/octet-stream" ∧
    resolveMimeType (some "") none = "application/octet-stream" := by
  refine ⟨fun detected => rfl, ?_, ?_, rfl, rfl⟩
  · intro contentType detected
    cases contentType with
    | none =>
      cases detected with
      | none => decide
      | some d =>
        by_cases hd : (d == "") = true
        · simp [resolveMimeType, jsFalsy, jsOr, hd]
          decide
        · have hd' : (d == "") = false := by simpa using hd
          simp only [resolveMimeType, jsFalsy, jsOr, hd']
          simpa using string_length_pos_of_beq_empty_false hd'
    | some s =>
      by_cases hs : (s == "") = true
      · cases detected with
        | none =>
          simp [resolveMimeType, jsFalsy, jsOr, hs]
          decide
        | some d =>
          by_cases hd : (d == "") = true
          · simp [resolveMimeType, jsFalsy, jsOr, hs, hd]
            decide
          · have hd' : (d == "") = false := by simpa using hd
            simp only [resolveMimeType, jsFalsy, jsOr, hs, if_pos, if_neg]
            simp only [if_true, hd', if_false]
            simpa using string_length_pos_of_beq_empty_false hd'
      · have hs' : (s == "") = false := by simpa using hs
        simp only [resolveMimeType, jsFalsy, hs', if_false, Option.getD_some]
        exact string_length_pos_of_beq_empty_false hs'
  · intro m hm
    simp [resolveMimeType, jsFalsy, jsOr, hm]

/-- C5, witness. -/
theorem c5_witness :
    ("image/png" == "") = false ∧
    resolveMimeType none (some "image/png") = "image/png" :=
  ⟨by decide, c5_resolution_never_empty.2.2.1 "image/png" (by decide)⟩

theorem dispatchChain_eq_classify (renderers : Category → Except String String)
    (mimeType : String) :
    dispatchChain renderers mimeType = renderers (classify mimeType) := by
  unfold dispatchChain classify
  split_ifs <;> rfl

/-- C6: the `try`/`catch` boundary in `handleResponse` covers every branch
of the dispatch chain: whatever renderer the MIME type's category selects,
a success is delivered as is and a failure is converted into the inline
error fragment — the output is always one of the two, never an unhandled
fault. -/
theorem c6_failure_boundary (renderers : Category → Except String String)
    (mimeType : String) :
    (∃ html, renderers (classify mimeType) = Except.ok html ∧
       handleResponseWith renderers mimeType = html) ∨
    (∃ msg, renderers (classify mimeType) = Except.error msg ∧
       handleResponseWith renderers mimeType = errorDiv msg) := by
  cases hr : renderers (classify mimeType) with
  | error msg =>
    refine Or.inr ⟨msg, rfl, ?_⟩
    unfold handleResponseWith
    rw [dispatchChain_eq_classify, hr]
  | ok html =>
    refine Or.inl ⟨html, rfl, ?_⟩
    unfold handleResponseWith
    rw [dispatchChain_eq_classify, hr]

/-- The spec's §8 scenario: `{"a":1}` pretty-prints as `{\n  "a": 1\n}`
(braces written as their escapes here). -/
theorem stringify2_scenario :
    stringify2 (Json.obj [(['a'], Json.num 1)]) = strL "\x7b\n  \"a\": 1\n\x7d" := by
  simp [stringify2, printJson, printMembers, printMember, escStr, escapeChar,
    intToChars, natToChars, digit10, spacesL, strL]

/-- C8: the StructuredData round-trip: when the decoded payload text
parses as JSON, parsing the 2-space pretty-printed output again yields a
value equal to the one obtained from the original text. -/
theorem c8_pretty_print_round_trip (t : List Char) (v : Json)
    (_h : jsonParse t = some v) : jsonParse (stringify2 v) = some v :=
  jsonParse_stringify2 v

/-- C8, witness at the payload text `{"a":1}`. -/
theorem c8_witness :
    jsonParse (strL "\x7b\"a\":1\x7d") = some (Json.obj [(['a'], Json.num 1)]) ∧
    jsonParse (stringify2 (Json.obj [(['a'], Json.num 1)])) =
      some (Json.obj [(['a'], Json.num 1)]) :=
  ⟨rfl, c8_pretty_print_round_trip (strL "\x7b\"a\":1\x7d")
    (Json.obj [(['a'], Json.num 1)]) rfl⟩

/-- C3: evaluation at the failing input. On the malformed JSON payload
text `<{a:}` (declared `application/json`), both entry points return a
normal render fragment (`Except.ok`), never a thrown error; the
`src/main.ts` fallback displays the raw text with `<`/`>` escaped, but
the `part_000` fallback interpolates the raw text unescaped, so the
payload's `<` reaches the page unescaped there, against the claim and
the spec. -/
theorem c3_malformed_json_fallback :
    jsonParse (strL "<\x7ba:\x7d") = none ∧
    Main.handleJSON (strL "<\x7ba:\x7d") = Except.ok (escLtGt (strL "<\x7ba:\x7d")) ∧
    (Main.handleJSONShown (strL "<\x7ba:\x7d")).contains '<' = false ∧
    Alt.handleJSON (strL "<\x7ba:\x7d") = Except.ok (strL "<\x7ba:\x7d") ∧
    (Alt.handleJSONShown (strL "<\x7ba:\x7d")).contains '<' = true :=
  ⟨rfl, rfl, by decide, rfl, by decide⟩

/-- C9: `getExtensionFromMime` falls back to `"bin"` on every MIME string
absent from its table, and the archive MIME types `application/gzip`,
`application/x-gzip`, `application/x-tar`, `application/x-bzip2` and
`application/x-zip-compressed` — all members of `archiveTypes` — are
absent from both entry points' tables and resolve to `"bin"`. -/
theorem c9_extension_table_fallback :
    (∀ m, (∀ pair ∈ Main.mimeToExt, pair.1 ≠ m) →
      Main.getExtensionFromMime m = "bin") ∧
    (∀ m, (∀ pair ∈ Alt.mimeToExt, pair.1 ≠ m) →
      Alt.getExtensionFromMime m = "bin") ∧
    (Main.getExtensionFromMime "application/gzip" = "bin" ∧
     Main.getExtensionFromMime "application/x-gzip" = "bin" ∧
     Main.getExtensionFromMime "application/x-tar" = "bin" ∧
     Main.getExtensionFromMime "application/x-bzip2" = "bin" ∧
     Main.getExtensionFromMime "application/x-zip-compressed" = "bin") ∧
    (Alt.getExtensionFromMime "application/gzip" = "bin" ∧
     Alt.getExtensionFromMime "application/x-gzip" = "bin" ∧
     Alt.getExtensionFromMime "application/x-tar" = "bin" ∧
     Alt.getExtensionFromMime "application/x-bzip2" = "bin" ∧
     Alt.getExtensionFromMime "application/x-zip-compressed" = "bin") ∧
    (isArchive "application/gzip" = true ∧
     isArchive "application/x-gzip" = true ∧
     isArchive "application/x-tar" = true ∧
     isArchive "application/x-bzip2" = true ∧
     isArchive "application/x-zip-compressed" = true) := by
  refine ⟨?_, ?_, by decide, by decide, by decide⟩
  · intro m h
    unfold Main.getExtensionFromMime
    rw [lookup_eq_none_of_keys_ne Main.mimeToExt m h]
    rfl
  · intro m h
    unfold Alt.getExtensionFromMime
    rw [lookup_eq_none_of_keys_ne Alt.mimeToExt m h]
    rfl

/-- C9, witness. -/
theorem c9_witness :
    (∀ pair ∈ Main.mimeToExt, pair.1 ≠ "application/x-tar") ∧
    Main.getExtensionFromMime "application/x-tar" = "bin" :=
  ⟨by decide, c9_extension_table_fallback.1 "application/x-tar" (by decide)⟩

/-- C10: the `isText` predicate itself conjoins `!isHTML`, so a MIME type
accepted by `isText` is never an HTML type; in particular `text/html` and
`application/xhtml+xml` fail `isText` regardless of the evaluation order
of the predicate chain. -/
theorem c10_isText_excludes_html :
    (∀ m, isText m = true → isHTML m = false) ∧
    isText "text/html" = false ∧
    isText "application/xhtml+xml" = false := by
  refine ⟨?_, by decide, by decide⟩
  intro m h
  unfold isText at h
  have h2 := (Bool.and_eq_true _ _).mp h
  have h3 : (!isHTML m) = true := h2.2
  cases hh : isHTML m with
  | false => rfl
  | true => rw [hh] at h3; exact absurd h3 (by decide)

/-- C10, witness. -/
theorem c10_witness :
    isText "text/plain" = true ∧ isHTML "text/plain" = false :=
  ⟨by decide, c10_isText_excludes_html.1 "text/plain" (by decide)⟩

end IpfsViewer
